import Mathlib

/-!
Verification of the rusty-lox lexical scanner (src/main.rs).

The scanner is embedded shallowly.  The Rust `Scanner` owns the source text
and walks it by extended grapheme clusters; we therefore model the source as
the list of its grapheme clusters (`List String`), each cluster a nonempty
string of the characters it contains.  `chars().count()` of the original
string is the sum of the lengths of the clusters (`charsCount`), while the
grapheme count is the list length; the code mixes the two in `eof`, and the
model keeps both so that the mixture is visible.

Rust `unwrap` on a missing grapheme (a panic) is modelled by the
`Res.panicked` outcome.  The two inner `while` loops and the outer scan loop
are modelled with explicit fuel; `Res.fuelOut` marks fuel exhaustion, and the
fuel supplied (`source.length + 1`) dominates every possible iteration count
since every iteration either consumes a grapheme index below `source.length`
or stops.
-/

namespace RustyLox

/-- Rust `enum Literal`: the decoded value attached to a token. -/
inductive Literal where
  | String (s : String)
  | NULL
deriving DecidableEq

/-- Rust `enum ErrorType`. -/
inductive ErrorType where
  | UnexpectedCharacter (c : String)
  | UnterminatedString (s : String)
deriving DecidableEq

/-- Rust `struct Error`: an error with the line it was recorded on. -/
structure Error where
  error_type : ErrorType
  line : Nat
deriving DecidableEq

/-- Rust `enum TokenType`. -/
inductive TokenType where
  | LEFT_PAREN
  | RIGHT_PAREN
  | LEFT_BRACE
  | RIGHT_BRACE
  | STAR
  | DOT
  | COMMA
  | PLUS
  | MINUS
  | SEMICOLON
  | SLASH
  | EQUAL
  | EQUAL_EQUAL
  | BANG
  | BANG_EQUAL
  | LESS
  | LESS_EQUAL
  | GREATER
  | GREATER_EQUAL
  | EOF
  | LINE_BREAK
  | ERROR
  | STRING
deriving DecidableEq

/-- Rust `struct Token`. -/
structure Token where
  token_type : TokenType
  literal : Option Literal
  text : String
  line : Nat
deriving DecidableEq

/-- Rust `TokenType::parse`: classify one grapheme cluster.  `None` is
whitespace (dropped); unrecognized input classifies to `ERROR`. -/
def TokenType.parse (c : String) : Option TokenType :=
  match c with
  | "(" => some TokenType.LEFT_PAREN
  | ")" => some TokenType.RIGHT_PAREN
  | "\x7b" => some TokenType.LEFT_BRACE
  | "\x7d" => some TokenType.RIGHT_BRACE
  | "*" => some TokenType.STAR
  | "." => some TokenType.DOT
  | "," => some TokenType.COMMA
  | "+" => some TokenType.PLUS
  | "-" => some TokenType.MINUS
  | ";" => some TokenType.SEMICOLON
  | "/" => some TokenType.SLASH
  | "=" => some TokenType.EQUAL
  | "==" => some TokenType.EQUAL_EQUAL
  | "!" => some TokenType.BANG
  | "!=" => some TokenType.BANG_EQUAL
  | "<" => some TokenType.LESS
  | "<=" => some TokenType.LESS_EQUAL
  | ">" => some TokenType.GREATER
  | ">=" => some TokenType.GREATER_EQUAL
  | "\r" => none
  | "\t" => none
  | " " => none
  | "\n" => some TokenType.LINE_BREAK
  | "\"" => some TokenType.STRING
  | "" => some TokenType.EOF
  | _ => some TokenType.ERROR

/-- Rust `struct Scanner`.  `source` is the list of the source text's
extended grapheme clusters, in order. -/
structure Scanner where
  source : List String
  tokens : List Token
  errors : List Error
  start : Nat
  current : Nat
  line : Nat
  has_errors : Bool
deriving DecidableEq

/-- Rust `Scanner::new`. -/
def Scanner.new (source : List String) : Scanner :=
  { source := source
    tokens := []
    errors := []
    start := 0
    current := 0
    line := 1
    has_errors := false }

/-- `self.source.chars().count()`: the number of characters (Unicode scalar
values) of the source text, i.e. the sum of the character counts of its
grapheme clusters. -/
def charsCount (source : List String) : Nat :=
  (source.map String.length).sum

/-- Rust `Scanner::eof`: `self.current == self.source.chars().count()`.
Note the comparison is against the character count, not the grapheme count. -/
def Scanner.eof (s : Scanner) : Bool :=
  s.current == charsCount s.source

/-- Rust `Scanner::substr`:
`self.source.graphemes(true).skip(start).take(end - start).collect()`. -/
def Scanner.substr (s : Scanner) (start e : Nat) : String :=
  String.join ((s.source.drop start).take (e - start))

/-- Rust `Scanner::advance`: increment the cursor, then read the grapheme at
the old position; the `unwrap` on a missing grapheme is `none` (a panic). -/
def Scanner.advance (s : Scanner) : Option (String × Scanner) :=
  let t : Scanner := { s with current := s.current + 1 }
  match t.source[t.current - 1]? with
  | none => none
  | some g => some (g, t)

/-- Rust `Scanner::peek`: read the grapheme at the cursor; the `unwrap` on a
missing grapheme is `none` (a panic). -/
def Scanner.peek (s : Scanner) : Option String :=
  s.source[s.current]?

/-- Rust `Scanner::add_error`: set the sticky flag and push the error,
tagged with the current line. -/
def Scanner.add_error (s : Scanner) (error_type : ErrorType) : Scanner :=
  { s with
    has_errors := true
    errors := s.errors ++ [{ error_type := error_type, line := s.line }] }

/-- Rust `Scanner::add_token`: an `EOF` token gets empty text and line 1;
any other token gets the grapheme slice `[start, current)` as text — and
also line 1 (the constant is what the source writes in both arms). -/
def Scanner.add_token (s : Scanner) (token_type : TokenType) (literal : Option Literal) : Scanner :=
  let token : Token :=
    if token_type = TokenType.EOF then
      { token_type := token_type, literal := literal, text := "", line := 1 }
    else
      { token_type := token_type, literal := literal
        text := String.join ((s.source.drop s.start).take (s.current - s.start))
        line := 1 }
  { s with tokens := s.tokens ++ [token] }

/-- Rust `Scanner::is_compound_token`: at end of input answer `false`;
otherwise compare the grapheme at the cursor with `c` (the callers pass
`'='` and `'/'`), consuming it exactly when it matches.  The `unwrap` on a
missing grapheme is `none` (a panic). -/
def Scanner.is_compound_token (s : Scanner) (c : String) : Option (Bool × Scanner) :=
  if s.eof then some (false, s)
  else
    match s.source[s.current]? with
    | none => none
    | some g =>
      if g = c then some (true, { s with current := s.current + 1 })
      else some (false, s)

/-- Outcome of a fuelled run: fuel ran out, a Rust `unwrap` panicked, or a
value was produced. -/
inductive Res (α : Type) where
  | fuelOut : Res α
  | panicked : Res α
  | ok : α → Res α
deriving DecidableEq

/-- The shape shared by the two inner loops of `scan_tokens`
(`while !self.eof() && self.peek() != stop { self.current += 1; }`):
starting from `current`, walk forward until the cursor reaches `total`
(the `eof` bound, a character count) or the grapheme under the cursor
equals `stop`; return the final cursor. -/
def skip_until (source : List String) (total : Nat) (stop : String) :
    Nat → Nat → Res Nat
  | 0, _ => Res.fuelOut
  | fuel + 1, current =>
    if current = total then Res.ok current
    else
      match source[current]? with
      | none => Res.panicked
      | some g =>
        if g = stop then Res.ok current
        else skip_until source total stop fuel (current + 1)

/-- One iteration of the body of the `while !self.eof()` loop of
`Scanner::scan_tokens`: bookmark the token start, advance, classify,
dispatch. -/
def Scanner.scan_step (s₀ : Scanner) : Res Scanner :=
  let s : Scanner := { s₀ with start := s₀.current }
  match s.advance with
  | none => Res.panicked
  | some (c, t) =>
    match TokenType.parse c with
    | none => Res.ok t
    | some lexeme =>
      match lexeme with
      | TokenType.BANG =>
        match t.is_compound_token "=" with
        | none => Res.panicked
        | some (true, u) => Res.ok (u.add_token TokenType.BANG_EQUAL none)
        | some (false, u) => Res.ok (u.add_token TokenType.BANG none)
      | TokenType.EQUAL =>
        match t.is_compound_token "=" with
        | none => Res.panicked
        | some (true, u) => Res.ok (u.add_token TokenType.EQUAL_EQUAL none)
        | some (false, u) => Res.ok (u.add_token TokenType.EQUAL none)
      | TokenType.ERROR =>
        Res.ok (t.add_error (ErrorType.UnexpectedCharacter c))
      | TokenType.GREATER =>
        match t.is_compound_token "=" with
        | none => Res.panicked
        | some (true, u) => Res.ok (u.add_token TokenType.GREATER_EQUAL none)
        | some (false, u) => Res.ok (u.add_token TokenType.GREATER none)
      | TokenType.LESS =>
        match t.is_compound_token "=" with
        | none => Res.panicked
        | some (true, u) => Res.ok (u.add_token TokenType.LESS_EQUAL none)
        | some (false, u) => Res.ok (u.add_token TokenType.LESS none)
      | TokenType.LINE_BREAK =>
        Res.ok { t with line := t.line + 1 }
      | TokenType.SLASH =>
        match t.is_compound_token "/" with
        | none => Res.panicked
        | some (true, u) =>
          match skip_until u.source (charsCount u.source) "\n" (u.source.length + 1) u.current with
          | Res.fuelOut => Res.fuelOut
          | Res.panicked => Res.panicked
          | Res.ok n => Res.ok { u with current := n }
        | some (false, u) => Res.ok (u.add_token TokenType.SLASH none)
      | TokenType.STRING =>
        match skip_until t.source (charsCount t.source) "\"" (t.source.length + 1) t.current with
        | Res.fuelOut => Res.fuelOut
        | Res.panicked => Res.panicked
        | Res.ok n =>
          let u : Scanner := { t with current := n }
          if !u.eof then
            let v : Scanner := { u with current := u.current + 1 }
            Res.ok (v.add_token TokenType.STRING
              (some (Literal.String (v.substr (v.start + 1) (v.current - 1)))))
          else
            Res.ok (u.add_error (ErrorType.UnterminatedString (u.substr u.start u.current)))
      | lx =>
        Res.ok (t.add_token lx none)

/-- The `while !self.eof()` loop of `Scanner::scan_tokens`, with fuel. -/
def Scanner.scan_loop : Nat → Scanner → Res Scanner
  | 0, _ => Res.fuelOut
  | fuel + 1, s =>
    if s.eof then Res.ok s
    else
      match s.scan_step with
      | Res.fuelOut => Res.fuelOut
      | Res.panicked => Res.panicked
      | Res.ok s' => Scanner.scan_loop fuel s'

/-- Rust `Scanner::scan_tokens`: run the loop to the end of input, then
unconditionally append the `EOF` token.  The fuel `source.length + 1`
dominates the iteration count: every non-final iteration reads a grapheme,
so strictly increases a cursor that panics once past `source.length`. -/
def Scanner.scan_tokens (s : Scanner) : Res Scanner :=
  match Scanner.scan_loop (s.source.length + 1) s with
  | Res.ok s' => Res.ok (s'.add_token TokenType.EOF none)
  | r => r

/-!  ## Basic lemmas about the embedded operations -/

/-- `parse` classifies a grapheme as a line break exactly for `"\n"`. -/
theorem parse_lf_iff (c : String) :
    TokenType.parse c = some TokenType.LINE_BREAK ↔ c = "\n" := by
  unfold TokenType.parse
  split <;> simp_all

/-- `parse` classifies a grapheme as a string opener exactly for `"\""`. -/
theorem parse_quote_iff (c : String) :
    TokenType.parse c = some TokenType.STRING ↔ c = "\"" := by
  unfold TokenType.parse
  split <;> simp_all

/-- `parse` classifies a grapheme as `EOF` exactly for the empty string,
which is not a grapheme cluster of any real input. -/
theorem parse_eof_iff (c : String) :
    TokenType.parse c = some TokenType.EOF ↔ c = "" := by
  unfold TokenType.parse
  split <;> simp_all

/-- A grapheme whose classification is not the line-break kind is not
`"\n"`. -/
theorem ne_lf_of_parse {c : String} {tt : TokenType}
    (hp : TokenType.parse c = some tt) (hne : tt ≠ TokenType.LINE_BREAK) :
    c ≠ "\n" := by
  intro hc
  subst hc
  rw [show TokenType.parse "\n" = some TokenType.LINE_BREAK from rfl] at hp
  cases hp
  exact hne rfl

/-- `skip_until` never moves the cursor backwards. -/
theorem skip_until_ge (source : List String) (total : Nat) (stop : String) :
    ∀ (fuel current n : Nat), skip_until source total stop fuel current = Res.ok n →
      current ≤ n := by
  intro fuel
  induction fuel with
  | zero => intro current n h; simp [skip_until] at h
  | succ fuel ih =>
    intro current n h
    unfold skip_until at h
    split at h
    · cases h; omega
    · split at h
      · cases h
      · split at h
        · cases h; omega
        · have := ih (current + 1) n h
          omega

/-- `skip_until` stops either at the `total` bound or on the `stop`
grapheme. -/
theorem skip_until_stop (source : List String) (total : Nat) (stop : String) :
    ∀ (fuel current n : Nat), skip_until source total stop fuel current = Res.ok n →
      n = total ∨ source[n]? = some stop := by
  intro fuel
  induction fuel with
  | zero => intro current n h; simp [skip_until] at h
  | succ fuel ih =>
    intro current n h
    unfold skip_until at h
    split at h
    · cases h; left; assumption
    · split at h
      · cases h
      · split at h
        · cases h; right; simp_all
        · exact ih (current + 1) n h

/-- Every grapheme `skip_until` walked over exists and differs from
`stop`. -/
theorem skip_until_mid (source : List String) (total : Nat) (stop : String) :
    ∀ (fuel current n : Nat), skip_until source total stop fuel current = Res.ok n →
      ∀ k, current ≤ k → k < n → ∃ g, source[k]? = some g ∧ g ≠ stop := by
  intro fuel
  induction fuel with
  | zero => intro current n h; simp [skip_until] at h
  | succ fuel ih =>
    intro current n h k hk1 hk2
    unfold skip_until at h
    split at h
    · cases h; omega
    · split at h
      · cases h
      · split at h
        · cases h; omega
        · rcases Nat.eq_or_lt_of_le hk1 with rfl | hlt
          · exact ⟨_, by assumption, by assumption⟩
          · exact ih (current + 1) n h k hlt hk2

/-- Occurrence counts in a prefix do not change across a stretch that
avoids the counted element. -/
theorem count_take_between (l : List String) (a : String) :
    ∀ (m n : Nat), m ≤ n → (∀ k, m ≤ k → k < n → l[k]? ≠ some a) →
      (l.take n).count a = (l.take m).count a := by
  intro m n
  induction n with
  | zero =>
    intro h _
    have hm : m = 0 := by omega
    subst hm
    rfl
  | succ n ih =>
    intro hmn hk
    rcases Nat.eq_or_lt_of_le hmn with rfl | hlt
    · rfl
    · have hn : m ≤ n := by omega
      rw [List.take_succ, List.count_append]
      have h0 : l[n]?.toList.count a = 0 := by
        cases hg : l[n]? with
        | none => simp
        | some g =>
          have hne : g ≠ a := fun he => hk n hn (by omega) (by rw [hg, he])
          simp only [Option.toList_some, List.count_eq_zero, List.mem_singleton]
          exact fun he => hne he.symm
      rw [h0, ih hn (fun k h1 h2 => hk k h1 (by omega))]
      exact Nat.add_zero _

/-- Joining a cons. -/
theorem join_cons (a : String) (l : List String) :
    String.join (a :: l) = a ++ String.join l := by
  apply String.ext
  simp [String.join_eq]

/-- Joining an append. -/
theorem join_append (l₁ l₂ : List String) :
    String.join (l₁ ++ l₂) = String.join l₁ ++ String.join l₂ := by
  apply String.ext
  simp [String.join_eq]

/-- A source with no empty grapheme cluster has at least as many characters
as clusters. -/
theorem length_le_charsCount (source : List String) (h : ∀ g ∈ source, g ≠ "") :
    source.length ≤ charsCount source := by
  induction source with
  | nil => simp [charsCount]
  | cons x xs ih =>
    have hx : x ≠ "" := h x (by simp)
    have h1 : 1 ≤ x.length := by
      rcases Nat.eq_zero_or_pos x.length with h0 | h0
      · refine absurd ?_ hx
        cases x with
        | mk data =>
          simp [String.length] at h0
          simp [h0]
      · exact h0
    have h2 := ih (fun g hg => h g (by simp [hg]))
    simp only [charsCount, List.map_cons, List.sum_cons, List.length_cons] at *
    omega

/-- The slice starting at an existing grapheme is that grapheme followed by
the rest of the slice. -/
theorem drop_take_cons (l : List String) (n m : Nat) (a : String)
    (h : l[n]? = some a) :
    (l.drop n).take (m + 1) = a :: (l.drop (n + 1)).take m := by
  rcases List.getElem?_eq_some_iff.mp h with ⟨hn, ha⟩
  rw [List.drop_eq_getElem_cons hn, ha, List.take_succ_cons]

/-- Extending a slice by one existing grapheme appends it. -/
theorem take_snoc (l : List String) (n m : Nat) (b : String)
    (h : l[n + m]? = some b) :
    (l.drop n).take (m + 1) = (l.drop n).take m ++ [b] := by
  rw [List.take_succ, List.getElem?_drop, h]
  rfl

@[simp]
theorem add_token_source (s : Scanner) (tt : TokenType) (lit : Option Literal) :
    (s.add_token tt lit).source = s.source := rfl

@[simp]
theorem add_token_errors (s : Scanner) (tt : TokenType) (lit : Option Literal) :
    (s.add_token tt lit).errors = s.errors := rfl

@[simp]
theorem add_token_line (s : Scanner) (tt : TokenType) (lit : Option Literal) :
    (s.add_token tt lit).line = s.line := rfl

@[simp]
theorem add_token_current (s : Scanner) (tt : TokenType) (lit : Option Literal) :
    (s.add_token tt lit).current = s.current := rfl

@[simp]
theorem add_token_start (s : Scanner) (tt : TokenType) (lit : Option Literal) :
    (s.add_token tt lit).start = s.start := rfl

@[simp]
theorem add_token_flag (s : Scanner) (tt : TokenType) (lit : Option Literal) :
    (s.add_token tt lit).has_errors = s.has_errors := rfl

/-- The token pushed by `add_token`. -/
theorem add_token_tokens (s : Scanner) (tt : TokenType) (lit : Option Literal) :
    (s.add_token tt lit).tokens = s.tokens ++
      [if tt = TokenType.EOF then
        { token_type := tt, literal := lit, text := "", line := 1 }
       else
        { token_type := tt, literal := lit
          text := String.join ((s.source.drop s.start).take (s.current - s.start))
          line := 1 }] := by
  unfold Scanner.add_token
  split <;> rfl

@[simp]
theorem add_error_source (s : Scanner) (e : ErrorType) :
    (s.add_error e).source = s.source := rfl

@[simp]
theorem add_error_tokens (s : Scanner) (e : ErrorType) :
    (s.add_error e).tokens = s.tokens := rfl

@[simp]
theorem add_error_errors (s : Scanner) (e : ErrorType) :
    (s.add_error e).errors = s.errors ++ [{ error_type := e, line := s.line }] := rfl

@[simp]
theorem add_error_line (s : Scanner) (e : ErrorType) :
    (s.add_error e).line = s.line := rfl

@[simp]
theorem add_error_current (s : Scanner) (e : ErrorType) :
    (s.add_error e).current = s.current := rfl

@[simp]
theorem add_error_start (s : Scanner) (e : ErrorType) :
    (s.add_error e).start = s.start := rfl

@[simp]
theorem add_error_flag (s : Scanner) (e : ErrorType) :
    (s.add_error e).has_errors = true := rfl

/-- A grapheme with no classification (whitespace) is not `"\n"`. -/
theorem ne_lf_of_parse_none {c : String} (hp : TokenType.parse c = none) :
    c ≠ "\n" := by
  intro hc
  subst hc
  rw [show TokenType.parse "\n" = some TokenType.LINE_BREAK from rfl] at hp
  cases hp

/-- Consuming one grapheme other than `a` leaves the occurrence count of
`a` in the consumed prefix unchanged. -/
theorem count_take_skip_one (l : List String) (a c : String) (n : Nat)
    (hc : l[n]? = some c) (hne : c ≠ a) :
    (l.take (n + 1)).count a = (l.take n).count a :=
  count_take_between l a n (n + 1) (by omega)
    (fun k h1 h2 => by
      have hk : k = n := by omega
      subst hk
      rw [hc]
      simp [hne])

/-- Consuming the grapheme `a` itself adds one occurrence to the consumed
prefix. -/
theorem count_take_self (l : List String) (a : String) (n : Nat)
    (hc : l[n]? = some a) :
    (l.take (n + 1)).count a = (l.take n).count a + 1 := by
  rw [List.take_succ, List.count_append, hc]
  simp

/-- What `is_compound_token` answers: `false` and an unchanged scanner, or
`true` with the cursor past a matching grapheme. -/
theorem is_compound_spec (s : Scanner) (c : String) (b : Bool) (u : Scanner)
    (h : s.is_compound_token c = some (b, u)) :
    (b = false ∧ u = s) ∨
    (b = true ∧ u = { s with current := s.current + 1 } ∧
      s.source[s.current]? = some c ∧ s.current ≠ charsCount s.source) := by
  unfold Scanner.is_compound_token Scanner.eof at h
  split at h
  · left
    cases h
    exact ⟨rfl, rfl⟩
  · split at h
    · cases h
    · split at h
      · right
        cases h
        refine ⟨rfl, rfl, by simp_all, ?_⟩
        simp_all [beq_iff_eq]
      · left
        cases h
        exact ⟨rfl, rfl⟩

/-- Everything one loop iteration can do to the scanner state: the source is
untouched, the cursor strictly advances, tokens and errors only grow at the
back, the sticky flag is the old flag or-ed with "an error was recorded",
the line counter never decreases — and, for quote-free sources, it grows by
exactly the number of line-feed graphemes the iteration consumed; no token
of kind `EOF` is emitted when every grapheme is nonempty. -/
theorem scan_step_spec (s s' : Scanner) (h : Scanner.scan_step s = Res.ok s') :
    s'.source = s.source ∧ s.current < s'.current ∧
    ∃ nt ne, s'.tokens = s.tokens ++ nt ∧ s'.errors = s.errors ++ ne ∧
      s'.has_errors = (s.has_errors || !ne.isEmpty) ∧
      s.line ≤ s'.line ∧
      ((s'.line + (s.source.take s.current).count "\n"
          = s.line + (s.source.take s'.current).count "\n") ∨
       (s.source[s.current]? = some "\"" ∧ s'.line = s.line ∧
        ((∃ mid, Token.mk TokenType.STRING (some (Literal.String mid))
            (String.join ((s.source.drop s.current).take (s'.current - s.current))) 1
              ∈ s'.tokens) ∨
         (∃ er ∈ s'.errors, er.error_type = ErrorType.UnterminatedString
            (String.join ((s.source.drop s.current).take (s'.current - s.current))))))) ∧
      ((∀ g ∈ s.source, g ≠ "") → ∀ t ∈ nt, t.token_type ≠ TokenType.EOF) := by
  unfold Scanner.scan_step Scanner.advance at h
  simp only [Nat.add_sub_cancel] at h
  cases hc : s.source[s.current]? with
  | none =>
    rw [hc] at h
    simp at h
  | some c =>
    rw [hc] at h
    simp only at h
    cases hp : TokenType.parse c with
    | none =>
      rw [hp] at h
      simp only at h
      cases h
      refine ⟨rfl, Nat.lt_succ_self _, [], [], by simp, by simp, by simp, le_refl _, Or.inl ?_, by simp⟩
      have hc' : c ≠ "\n" := ne_lf_of_parse_none hp
      show s.line + (s.source.take s.current).count "\n"
          = s.line + (s.source.take (s.current + 1)).count "\n"
      rw [count_take_skip_one s.source "\n" c s.current hc hc']
    | some lx =>
      rw [hp] at h
      simp only at h
      cases lx
      case LINE_BREAK =>
        simp only at h
        cases h
        refine ⟨rfl, Nat.lt_succ_self _, [], [], by simp, by simp, by simp, Nat.le_succ _, Or.inl ?_, by simp⟩
        have hc' : c = "\n" := (parse_lf_iff c).mp hp
        subst hc'
        show (s.line + 1) + (s.source.take s.current).count "\n"
            = s.line + (s.source.take (s.current + 1)).count "\n"
        rw [count_take_self s.source "\n" s.current hc]
        omega
      case ERROR =>
        simp only at h
        cases h
        refine ⟨rfl, Nat.lt_succ_self _, [], _, by simp, rfl, by simp, le_refl _, Or.inl ?_, by simp⟩
        have hc' : c ≠ "\n" := ne_lf_of_parse hp (by decide)
        show s.line + (s.source.take s.current).count "\n"
            = s.line + (s.source.take (s.current + 1)).count "\n"
        rw [count_take_skip_one s.source "\n" c s.current hc hc']
      case BANG =>
        simp only at h
        split at h
        · exact (Res.noConfusion h)
        · rename_i u heq
          rcases is_compound_spec _ _ _ _ heq with ⟨hb, _⟩ | ⟨_, hu, hg, _⟩
          · exact absurd hb (by decide)
          · subst hu
            try simp only at h
            cases h
            refine ⟨rfl, ?_, _, [], rfl, by simp, by simp, le_refl _, ?_, ?_⟩
            · show s.current < s.current + 1 + 1
              omega
            · refine Or.inl ?_
              have hc' : c ≠ "\n" := ne_lf_of_parse hp (by decide)
              have hg' : s.source[s.current + 1]? = some "=" := hg
              show s.line + (s.source.take s.current).count "\n"
                  = s.line + (s.source.take (s.current + 1 + 1)).count "\n"
              rw [count_take_skip_one s.source "\n" "=" (s.current + 1) hg' (by decide),
                  count_take_skip_one s.source "\n" c s.current hc hc']
            · intro _ t ht
              simp only [List.mem_singleton] at ht
              subst ht
              rw [if_neg (by decide)]
              simp
        · rename_i u heq
          rcases is_compound_spec _ _ _ _ heq with ⟨_, hu⟩ | ⟨hb, _⟩
          · subst hu
            try simp only at h
            cases h
            refine ⟨rfl, Nat.lt_succ_self _, _, [], rfl, by simp, by simp, le_refl _, ?_, ?_⟩
            · refine Or.inl ?_
              have hc' : c ≠ "\n" := ne_lf_of_parse hp (by decide)
              show s.line + (s.source.take s.current).count "\n"
                  = s.line + (s.source.take (s.current + 1)).count "\n"
              rw [count_take_skip_one s.source "\n" c s.current hc hc']
            · intro _ t ht
              simp only [List.mem_singleton] at ht
              subst ht
              rw [if_neg (by decide)]
              simp
          · exact absurd hb (by decide)
      case EQUAL =>
        simp only at h
        split at h
        · exact (Res.noConfusion h)
        · rename_i u heq
          rcases is_compound_spec _ _ _ _ heq with ⟨hb, _⟩ | ⟨_, hu, hg, _⟩
          · exact absurd hb (by decide)
          · subst hu
            try simp only at h
            cases h
            refine ⟨rfl, ?_, _, [], rfl, by simp, by simp, le_refl _, ?_, ?_⟩
            · show s.current < s.current + 1 + 1
              omega
            · refine Or.inl ?_
              have hc' : c ≠ "\n" := ne_lf_of_parse hp (by decide)
              have hg' : s.source[s.current + 1]? = some "=" := hg
              show s.line + (s.source.take s.current).count "\n"
                  = s.line + (s.source.take (s.current + 1 + 1)).count "\n"
              rw [count_take_skip_one s.source "\n" "=" (s.current + 1) hg' (by decide),
                  count_take_skip_one s.source "\n" c s.current hc hc']
            · intro _ t ht
              simp only [List.mem_singleton] at ht
              subst ht
              rw [if_neg (by decide)]
              simp
        · rename_i u heq
          rcases is_compound_spec _ _ _ _ heq with ⟨_, hu⟩ | ⟨hb, _⟩
          · subst hu
            try simp only at h
            cases h
            refine ⟨rfl, Nat.lt_succ_self _, _, [], rfl, by simp, by simp, le_refl _, ?_, ?_⟩
            · refine Or.inl ?_
              have hc' : c ≠ "\n" := ne_lf_of_parse hp (by decide)
              show s.line + (s.source.take s.current).count "\n"
                  = s.line + (s.source.take (s.current + 1)).count "\n"
              rw [count_take_skip_one s.source "\n" c s.current hc hc']
            · intro _ t ht
              simp only [List.mem_singleton] at ht
              subst ht
              rw [if_neg (by decide)]
              simp
          · exact absurd hb (by decide)
      case GREATER =>
        simp only at h
        split at h
        · exact (Res.noConfusion h)
        · rename_i u heq
          rcases is_compound_spec _ _ _ _ heq with ⟨hb, _⟩ | ⟨_, hu, hg, _⟩
          · exact absurd hb (by decide)
          · subst hu
            try simp only at h
            cases h
            refine ⟨rfl, ?_, _, [], rfl, by simp, by simp, le_refl _, ?_, ?_⟩
            · show s.current < s.current + 1 + 1
              omega
            · refine Or.inl ?_
              have hc' : c ≠ "\n" := ne_lf_of_parse hp (by decide)
              have hg' : s.source[s.current + 1]? = some "=" := hg
              show s.line + (s.source.take s.current).count "\n"
                  = s.line + (s.source.take (s.current + 1 + 1)).count "\n"
              rw [count_take_skip_one s.source "\n" "=" (s.current + 1) hg' (by decide),
                  count_take_skip_one s.source "\n" c s.current hc hc']
            · intro _ t ht
              simp only [List.mem_singleton] at ht
              subst ht
              rw [if_neg (by decide)]
              simp
        · rename_i u heq
          rcases is_compound_spec _ _ _ _ heq with ⟨_, hu⟩ | ⟨hb, _⟩
          · subst hu
            try simp only at h
            cases h
            refine ⟨rfl, Nat.lt_succ_self _, _, [], rfl, by simp, by simp, le_refl _, ?_, ?_⟩
            · refine Or.inl ?_
              have hc' : c ≠ "\n" := ne_lf_of_parse hp (by decide)
              show s.line + (s.source.take s.current).count "\n"
                  = s.line + (s.source.take (s.current + 1)).count "\n"
              rw [count_take_skip_one s.source "\n" c s.current hc hc']
            · intro _ t ht
              simp only [List.mem_singleton] at ht
              subst ht
              rw [if_neg (by decide)]
              simp
          · exact absurd hb (by decide)
      case LESS =>
        simp only at h
        split at h
        · exact (Res.noConfusion h)
        · rename_i u heq
          rcases is_compound_spec _ _ _ _ heq with ⟨hb, _⟩ | ⟨_, hu, hg, _⟩
          · exact absurd hb (by decide)
          · subst hu
            try simp only at h
            cases h
            refine ⟨rfl, ?_, _, [], rfl, by simp, by simp, le_refl _, ?_, ?_⟩
            · show s.current < s.current + 1 + 1
              omega
            · refine Or.inl ?_
              have hc' : c ≠ "\n" := ne_lf_of_parse hp (by decide)
              have hg' : s.source[s.current + 1]? = some "=" := hg
              show s.line + (s.source.take s.current).count "\n"
                  = s.line + (s.source.take (s.current + 1 + 1)).count "\n"
              rw [count_take_skip_one s.source "\n" "=" (s.current + 1) hg' (by decide),
                  count_take_skip_one s.source "\n" c s.current hc hc']
            · intro _ t ht
              simp only [List.mem_singleton] at ht
              subst ht
              rw [if_neg (by decide)]
              simp
        · rename_i u heq
          rcases is_compound_spec _ _ _ _ heq with ⟨_, hu⟩ | ⟨hb, _⟩
          · subst hu
            try simp only at h
            cases h
            refine ⟨rfl, Nat.lt_succ_self _, _, [], rfl, by simp, by simp, le_refl _, ?_, ?_⟩
            · refine Or.inl ?_
              have hc' : c ≠ "\n" := ne_lf_of_parse hp (by decide)
              show s.line + (s.source.take s.current).count "\n"
                  = s.line + (s.source.take (s.current + 1)).count "\n"
              rw [count_take_skip_one s.source "\n" c s.current hc hc']
            · intro _ t ht
              simp only [List.mem_singleton] at ht
              subst ht
              rw [if_neg (by decide)]
              simp
          · exact absurd hb (by decide)
      case SLASH =>
        simp only at h
        split at h
        · exact (Res.noConfusion h)
        · rename_i u heq
          rcases is_compound_spec _ _ _ _ heq with ⟨hb, _⟩ | ⟨_, hu, hg, _⟩
          · exact absurd hb (by decide)
          · subst hu
            simp only at h
            split at h
            · exact (Res.noConfusion h)
            · exact (Res.noConfusion h)
            · rename_i n hsk
              cases h
              have hge : s.current + 1 + 1 ≤ n := skip_until_ge _ _ _ _ _ _ hsk
              refine ⟨rfl, ?_, [], [], by simp, by simp, by simp, le_refl _, ?_, by simp⟩
              · show s.current < n
                omega
              · refine Or.inl ?_
                have hc' : c ≠ "\n" := ne_lf_of_parse hp (by decide)
                have hg' : s.source[s.current + 1]? = some "/" := hg
                show s.line + (s.source.take s.current).count "\n"
                    = s.line + (s.source.take n).count "\n"
                rw [count_take_between s.source "\n" s.current n (by omega) ?_]
                intro k hk1 hk2
                rcases Nat.lt_or_ge k (s.current + 1) with hlt | hge1
                · have hk : k = s.current := by omega
                  subst hk
                  rw [hc]
                  simp [hc']
                · rcases Nat.lt_or_ge k (s.current + 1 + 1) with hlt2 | hge2
                  · have hk : k = s.current + 1 := by omega
                    subst hk
                    rw [hg']
                    simp
                  · rcases skip_until_mid _ _ _ _ _ _ hsk k hge2 hk2 with ⟨g, hgk, hgne⟩
                    rw [hgk]
                    simp [hgne]
        · rename_i u heq
          rcases is_compound_spec _ _ _ _ heq with ⟨_, hu⟩ | ⟨hb, _⟩
          · subst hu
            try simp only at h
            cases h
            refine ⟨rfl, Nat.lt_succ_self _, _, [], rfl, by simp, by simp, le_refl _, ?_, ?_⟩
            · refine Or.inl ?_
              have hc' : c ≠ "\n" := ne_lf_of_parse hp (by decide)
              show s.line + (s.source.take s.current).count "\n"
                  = s.line + (s.source.take (s.current + 1)).count "\n"
              rw [count_take_skip_one s.source "\n" c s.current hc hc']
            · intro _ t ht
              simp only [List.mem_singleton] at ht
              subst ht
              rw [if_neg (by decide)]
              simp
          · exact absurd hb (by decide)
      case STRING =>
        simp only at h
        split at h
        · exact (Res.noConfusion h)
        · exact (Res.noConfusion h)
        · rename_i n hsk
          have hge : s.current + 1 ≤ n := skip_until_ge _ _ _ _ _ _ hsk
          have hcq : c = "\"" := (parse_quote_iff c).mp hp
          split at h
          · -- closing quote found: a string token is emitted
            cases h
            refine ⟨rfl, ?_, _, [], rfl, by simp, by simp, le_refl _, ?_, ?_⟩
            · show s.current < n + 1
              omega
            · refine Or.inr ⟨congrArg some hcq, rfl, Or.inl
                ⟨String.join ((s.source.drop (s.current + 1)).take (n - (s.current + 1))), ?_⟩⟩
              rw [add_token_tokens, if_neg (by decide)]
              exact List.mem_append_right _ (List.mem_singleton.mpr rfl)
            · intro _ t ht
              simp only [List.mem_singleton] at ht
              subst ht
              rw [if_neg (by decide)]
              simp
          · -- input exhausted: an unterminated-string error is recorded
            cases h
            refine ⟨rfl, ?_, [], _, by simp, rfl, by simp, le_refl _, ?_, by simp⟩
            · show s.current < n
              omega
            · refine Or.inr ⟨congrArg some hcq, rfl, Or.inr
                ⟨Error.mk (ErrorType.UnterminatedString (Scanner.substr s s.current n)) s.line,
                 ?_, ?_⟩⟩
              · exact List.mem_append_right _ (List.mem_singleton.mpr rfl)
              · rfl
      all_goals
        simp only at h
        cases h
        refine ⟨rfl, Nat.lt_succ_self _, _, [], rfl, by simp, by simp, le_refl _, ?_, ?_⟩
        · refine Or.inl ?_
          have hc' : c ≠ "\n" := ne_lf_of_parse hp (by decide)
          show s.line + (s.source.take s.current).count "\n"
              = s.line + (s.source.take (s.current + 1)).count "\n"
          rw [count_take_skip_one s.source "\n" c s.current hc hc']
        · first
          | (intro _ t ht
             simp only [List.mem_singleton] at ht
             subst ht
             rw [if_neg (by decide)]
             simp)
          | (intro hne' _ _
             exact absurd ((parse_eof_iff c).mp hp) (hne' c (List.getElem?_mem hc)))

/-- Emptiness of an appended list, negated, as a disjunction. -/
theorem not_isEmpty_append {α : Type} (l₁ l₂ : List α) :
    (!(l₁ ++ l₂).isEmpty) = ((!l₁.isEmpty) || (!l₂.isEmpty)) := by
  cases l₁ <;> cases l₂ <;> simp

/-- The loop-level accumulation of `scan_step_spec`: a completed loop ends
exactly at the `eof` bound with all the per-step guarantees composed. -/
theorem scan_loop_spec (fuel : Nat) :
    ∀ (s s' : Scanner), Scanner.scan_loop fuel s = Res.ok s' →
      s'.source = s.source ∧
      s'.current = charsCount s.source ∧
      ∃ nt ne, s'.tokens = s.tokens ++ nt ∧ s'.errors = s.errors ++ ne ∧
        s'.has_errors = (s.has_errors || !ne.isEmpty) ∧
        s.line ≤ s'.line ∧
        ("\"" ∉ s.source →
          s'.line + (s.source.take s.current).count "\n"
            = s.line + (s.source.take s'.current).count "\n") ∧
        ((∀ g ∈ s.source, g ≠ "") → ∀ t ∈ nt, t.token_type ≠ TokenType.EOF) := by
  induction fuel with
  | zero =>
    intro s s' h
    simp [Scanner.scan_loop] at h
  | succ fuel ih =>
    intro s s' h
    unfold Scanner.scan_loop at h
    split at h
    · rename_i heof
      cases h
      refine ⟨rfl, ?_, [], [], by simp, by simp, by simp, le_refl _, fun _ => rfl, by simp⟩
      simpa [Scanner.eof, beq_iff_eq] using heof
    · split at h
      · exact (Res.noConfusion h)
      · exact (Res.noConfusion h)
      · rename_i s₁ hstep
        obtain ⟨hsrc1, hcur1, nt₁, ne₁, htok1, herr1, hflag1, hline1, hcount1, heof1⟩ :=
          scan_step_spec s s₁ hstep
        obtain ⟨hsrc2, hcur2, nt₂, ne₂, htok2, herr2, hflag2, hline2, hcount2, heof2⟩ :=
          ih s₁ s' h
        refine ⟨hsrc2.trans hsrc1, ?_, nt₁ ++ nt₂, ne₁ ++ ne₂, ?_, ?_, ?_,
          le_trans hline1 hline2, ?_, ?_⟩
        · rw [hcur2, hsrc1]
        · rw [htok2, htok1, List.append_assoc]
        · rw [herr2, herr1, List.append_assoc]
        · rw [hflag2, hflag1, not_isEmpty_append, Bool.or_assoc]
        · intro hq
          have hq1 : "\"" ∉ s₁.source := by rw [hsrc1]; exact hq
          have e2 := hcount2 hq1
          rw [hsrc1] at e2
          rcases hcount1 with e1 | ⟨hqc, _, _⟩
          · omega
          · exact absurd (List.getElem?_mem hqc) hq
        · intro hne t ht
          rcases List.mem_append.mp ht with ht1 | ht2
          · exact heof1 hne t ht1
          · exact heof2 (by rw [hsrc1]; exact hne) t ht2

/-- Occurrences in a prefix split at any midpoint into the occurrences of
the shorter prefix plus those of the stretch between. -/
theorem count_take_decomp (l : List String) (a : String) (m n : Nat) (h : m ≤ n) :
    (l.take n).count a = (l.take m).count a + ((l.drop m).take (n - m)).count a := by
  obtain ⟨k, rfl⟩ : ∃ k, n = m + k := ⟨n - m, by omega⟩
  rw [List.take_add l m k, List.count_append, Nat.add_sub_cancel_left]

/-- The full line accounting of a completed loop, for every input: the final
line counter plus the line feeds lying inside the string-literal regions the
loop consumed equals the initial counter plus all line feeds consumed.  Each
region starts at a quote grapheme and is reported in the output: its text is
the lexeme of an emitted string token or the payload of an unterminated-string
error. -/
theorem scan_loop_line_spec (fuel : Nat) :
    ∀ (s s' : Scanner), Scanner.scan_loop fuel s = Res.ok s' →
      ∃ sregs : List (Nat × Nat),
        (s'.line + (sregs.map
              (fun p => ((s.source.drop p.1).take (p.2 - p.1)).count "\n")).sum
            + (s.source.take s.current).count "\n"
          = s.line + (s.source.take s'.current).count "\n") ∧
        (∀ p ∈ sregs, s.source[p.1]? = some "\"" ∧ p.1 < p.2 ∧
          ((∃ mid, Token.mk TokenType.STRING (some (Literal.String mid))
              (String.join ((s.source.drop p.1).take (p.2 - p.1))) 1 ∈ s'.tokens) ∨
           (∃ er ∈ s'.errors, er.error_type = ErrorType.UnterminatedString
              (String.join ((s.source.drop p.1).take (p.2 - p.1)))))) := by
  induction fuel with
  | zero =>
    intro s s' h
    simp [Scanner.scan_loop] at h
  | succ fuel ih =>
    intro s s' h
    unfold Scanner.scan_loop at h
    split at h
    · cases h
      exact ⟨[], by simp, by simp⟩
    · split at h
      · exact (Res.noConfusion h)
      · exact (Res.noConfusion h)
      · rename_i s₁ hstep
        obtain ⟨hsrc1, hcur1, nt₁, ne₁, htok1, herr1, hflag1, hline1, hdisj, heof1⟩ :=
          scan_step_spec s s₁ hstep
        obtain ⟨_, _, nt₂, ne₂, htok2, herr2, _, _, _, _⟩ := scan_loop_spec fuel s₁ s' h
        obtain ⟨sregs₁, heq1, hmem1⟩ := ih s₁ s' h
        rw [hsrc1] at heq1 hmem1
        rcases hdisj with heq0 | ⟨hqc, hlineq, htie⟩
        · exact ⟨sregs₁, by omega, hmem1⟩
        · refine ⟨(s.current, s₁.current) :: sregs₁, ?_, ?_⟩
          · have hdec : (s.source.take s₁.current).count "\n"
                = (s.source.take s.current).count "\n"
                  + ((s.source.drop s.current).take (s₁.current - s.current)).count "\n" :=
              count_take_decomp s.source "\n" s.current s₁.current (le_of_lt hcur1)
            simp only [List.map_cons, List.sum_cons]
            omega
          · intro p hp
            rcases List.mem_cons.mp hp with rfl | hp1
            · refine ⟨hqc, hcur1, ?_⟩
              rcases htie with ⟨mid, hmid⟩ | ⟨er, hermem, herty⟩
              · exact Or.inl ⟨mid, by rw [htok2]; exact List.mem_append_left _ hmid⟩
              · exact Or.inr ⟨er, by rw [herr2]; exact List.mem_append_left _ hermem, herty⟩
            · exact hmem1 p hp1

/-- A successful `scan_tokens` is a successful loop followed by the
unconditional `EOF` push. -/
theorem scan_tokens_ok (s s' : Scanner) (h : Scanner.scan_tokens s = Res.ok s') :
    ∃ s₀, Scanner.scan_loop (s.source.length + 1) s = Res.ok s₀ ∧
      s' = s₀.add_token TokenType.EOF none := by
  unfold Scanner.scan_tokens at h
  cases hl : Scanner.scan_loop (s.source.length + 1) s with
  | fuelOut => rw [hl] at h; simp at h
  | panicked => rw [hl] at h; simp at h
  | ok s₀ =>
    rw [hl] at h
    simp only at h
    cases h
    exact ⟨s₀, rfl, rfl⟩

/-- The token pushed for `EOF` by `add_token`. -/
theorem add_token_eof (s : Scanner) :
    (s.add_token TokenType.EOF none).tokens = s.tokens ++
      [{ token_type := TokenType.EOF, literal := none, text := "", line := 1 }] := by
  rw [add_token_tokens, if_pos rfl]

/-- Joining nothing. -/
theorem join_nil : String.join ([] : List String) = "" := rfl

/-- Joining one grapheme. -/
theorem join_one (a : String) : String.join [a] = a := by
  rw [join_cons, join_nil, String.append_empty]

/-- Joining two graphemes. -/
theorem join_pair (a b : String) : String.join [a, b] = a ++ b := by
  rw [join_cons, join_one]

/-- `is_compound_token` consumes a matching follower grapheme. -/
theorem is_compound_true (s : Scanner) (c : String)
    (h1 : s.source[s.current]? = some c) (h2 : s.current ≠ charsCount s.source) :
    s.is_compound_token c = some (true, { s with current := s.current + 1 }) := by
  unfold Scanner.is_compound_token Scanner.eof
  rw [if_neg (by simpa [beq_iff_eq] using h2), h1]
  simp

/-- `is_compound_token` answers `false` at end of input. -/
theorem is_compound_false_eof (s : Scanner) (c : String)
    (h : s.current = charsCount s.source) :
    s.is_compound_token c = some (false, s) := by
  unfold Scanner.is_compound_token Scanner.eof
  rw [if_pos (by simpa [beq_iff_eq] using h)]

/-- `is_compound_token` answers `false` on a non-matching follower. -/
theorem is_compound_false_ne (s : Scanner) (c g : String)
    (h1 : s.source[s.current]? = some g) (hg : g ≠ c)
    (h2 : s.current ≠ charsCount s.source) :
    s.is_compound_token c = some (false, s) := by
  unfold Scanner.is_compound_token Scanner.eof
  rw [if_neg (by simpa [beq_iff_eq] using h2), h1]
  simp only
  rw [if_neg hg]

/-!  ## The claims -/

/-- Claim C1: the claim says every emitted token records the live line
counter at token-start time; the code instead stamps the constant 1.  On
input `"\n("` the scanner consumes the line feed (the live counter becomes
2), then emits the left-paren token — whose recorded line is 1, not the
live counter 2. -/
theorem C1_token_line_stamped_constant_one :
    Scanner.scan_step (Scanner.new ["\n", "("]) =
      Res.ok { source := ["\n", "("], tokens := [], errors := [], start := 0,
               current := 1, line := 2, has_errors := false } ∧
    Scanner.scan_step { source := ["\n", "("], tokens := [], errors := [], start := 0,
                        current := 1, line := 2, has_errors := false } =
      Res.ok { source := ["\n", "("],
               tokens := [{ token_type := TokenType.LEFT_PAREN, literal := none,
                            text := "(", line := 1 }],
               errors := [], start := 1, current := 2, line := 2, has_errors := false } ∧
    (1 : Nat) ≠ 2 :=
  ⟨by decide, by decide, by decide⟩

/-- Claim C2: the claim says `eof` holds exactly when the cursor equals the
grapheme count; the code compares against the character count.  On the
one-grapheme, two-character source `e` + U+0301 (combining acute) the cursor
1 equals the grapheme count, yet `eof` is false — and the full scan then
panics on the `unwrap` in `advance`. -/
theorem C2_eof_compares_char_count :
    (["e\u0301"] : List String).length = 1 ∧
    charsCount ["e\u0301"] = 2 ∧
    Scanner.eof { Scanner.new ["e\u0301"] with current := 1 } = false ∧
    Scanner.eof { Scanner.new ["e\u0301"] with current := 2 } = true ∧
    Scanner.scan_tokens (Scanner.new ["e\u0301"]) = Res.panicked :=
  ⟨by decide, by decide, by decide, by decide, by decide⟩

/-- Claim C3, counterexample: on the input `"a\nb"` (a five-grapheme string
literal) the scanner consumes all five graphemes, one of which is a line
feed, yet finishes with the line counter still at 1, not 1 + 1: line feeds
consumed inside string literals do not increment the counter. -/
theorem C3_counterexample :
    (Scanner.scan_tokens (Scanner.new ["\"", "a", "\n", "b", "\""]) =
      Res.ok { source := ["\"", "a", "\n", "b", "\""],
               tokens := [{ token_type := TokenType.STRING,
                            literal := some (Literal.String "a\nb"),
                            text := "\"a\nb\"", line := 1 },
                          { token_type := TokenType.EOF, literal := none,
                            text := "", line := 1 }],
               errors := [], start := 0, current := 5, line := 1,
               has_errors := false }) ∧
    (["\"", "a", "\n", "b", "\""] : List String).count "\n" = 1 ∧
    (1 : Nat) ≠ 1 + 1 :=
  ⟨by decide, by decide, by decide⟩

/-- Claim C3 (amended): for every input whose grapheme clusters are
nonempty, after a completed scan the line counter equals 1 plus the number
of line-feed graphemes the scanner consumed outside string literals: the
final counter plus the line feeds lying inside the consumed string-literal
regions equals 1 plus all line feeds of the input, where each region starts
at a quote grapheme and its text is the lexeme of an emitted string token or
the payload of an unterminated-string error; when the input contains no
quote the counter is exactly 1 plus all line feeds; and no loop iteration
ever decreases the counter. -/
theorem C3_line_counter (src : List String) (s : Scanner)
    (hne : ∀ g ∈ src, g ≠ "")
    (hs : Scanner.scan_tokens (Scanner.new src) = Res.ok s) :
    (∃ sregs : List (Nat × Nat),
      (∀ p ∈ sregs, src[p.1]? = some "\"" ∧ p.1 < p.2 ∧
        ((∃ mid, Token.mk TokenType.STRING (some (Literal.String mid))
            (String.join ((src.drop p.1).take (p.2 - p.1))) 1 ∈ s.tokens) ∨
         (∃ er ∈ s.errors, er.error_type = ErrorType.UnterminatedString
            (String.join ((src.drop p.1).take (p.2 - p.1)))))) ∧
      s.line + (sregs.map (fun p => ((src.drop p.1).take (p.2 - p.1)).count "\n")).sum
        = 1 + src.count "\n") ∧
    ("\"" ∉ src → s.line = 1 + src.count "\n") ∧
    (∀ s₁ s₂ : Scanner, Scanner.scan_step s₁ = Res.ok s₂ → s₁.line ≤ s₂.line) := by
  obtain ⟨s₀, hl, rfl⟩ := scan_tokens_ok _ _ hs
  obtain ⟨hsrc, hcur, nt, ne, htok, herr, hflag, hline, hcount, heof⟩ :=
    scan_loop_spec _ _ _ hl
  obtain ⟨sregs, heq, hmem⟩ := scan_loop_line_spec _ _ _ hl
  have htake : List.take s₀.current src = src := by
    rw [show s₀.current = charsCount src from hcur]
    exact List.take_of_length_le (length_le_charsCount src hne)
  have heqn : s₀.line + (sregs.map
        (fun p => ((src.drop p.1).take (p.2 - p.1)).count "\n")).sum
      = 1 + src.count "\n" := by
    have h0 := heq
    simp only [Scanner.new] at h0
    rw [htake] at h0
    simpa using h0
  refine ⟨⟨sregs, ?_, ?_⟩, ?_, ?_⟩
  · intro p hp
    obtain ⟨hq1, hq2, hq3⟩ := hmem p hp
    refine ⟨hq1, hq2, ?_⟩
    rcases hq3 with ⟨mid, hmid⟩ | ⟨er, hermem, herty⟩
    · refine Or.inl ⟨mid, ?_⟩
      rw [add_token_eof]
      exact List.mem_append_left _ hmid
    · exact Or.inr ⟨er, hermem, herty⟩
  · rw [add_token_line]
    exact heqn
  · intro hq
    have hnil : sregs = [] := by
      cases hsr : sregs with
      | nil => rfl
      | cons p rest =>
        obtain ⟨hq1, _, _⟩ := hmem p (by rw [hsr]; exact List.mem_cons_self _ _)
        exact absurd (List.getElem?_mem hq1) hq
    rw [add_token_line]
    have h1 := heqn
    rw [hnil] at h1
    simpa using h1
  · intro s₁ s₂ h
    obtain ⟨_, _, _, _, _, _, _, hline, _, _⟩ := scan_step_spec s₁ s₂ h
    exact hline

/-- Claim C3, witness at the input `"a\nb"\n(`: a string literal containing
one line feed, then a line feed outside it.  The scan ends with line 2
(only the outside line feed counted) while the input holds two line feeds;
the region sum accounts for the one inside the string. -/
theorem C3_witness :
    (∃ sregs : List (Nat × Nat),
      (∀ p ∈ sregs,
        (["\"", "a", "\n", "b", "\"", "\n", "("] : List String)[p.1]? = some "\"" ∧
        p.1 < p.2 ∧
        ((∃ mid, Token.mk TokenType.STRING (some (Literal.String mid))
            (String.join (((["\"", "a", "\n", "b", "\"", "\n", "("] : List String).drop p.1).take (p.2 - p.1))) 1 ∈
              [Token.mk TokenType.STRING (some (Literal.String "a\nb")) "\"a\nb\"" 1,
               Token.mk TokenType.LEFT_PAREN none "(" 1,
               Token.mk TokenType.EOF none "" 1]) ∨
         (∃ er ∈ ([] : List Error), er.error_type = ErrorType.UnterminatedString
            (String.join (((["\"", "a", "\n", "b", "\"", "\n", "("] : List String).drop p.1).take (p.2 - p.1)))))) ∧
      2 + (sregs.map (fun p =>
            (((["\"", "a", "\n", "b", "\"", "\n", "("] : List String).drop p.1).take (p.2 - p.1)).count "\n")).sum
        = 1 + (["\"", "a", "\n", "b", "\"", "\n", "("] : List String).count "\n") ∧
    ("\"" ∉ (["\"", "a", "\n", "b", "\"", "\n", "("] : List String) →
      (2 : Nat) = 1 + (["\"", "a", "\n", "b", "\"", "\n", "("] : List String).count "\n") ∧
    (∀ s₁ s₂ : Scanner, Scanner.scan_step s₁ = Res.ok s₂ → s₁.line ≤ s₂.line) :=
  C3_line_counter ["\"", "a", "\n", "b", "\"", "\n", "("]
    (Scanner.mk ["\"", "a", "\n", "b", "\"", "\n", "("]
      [Token.mk TokenType.STRING (some (Literal.String "a\nb")) "\"a\nb\"" 1,
       Token.mk TokenType.LEFT_PAREN none "(" 1,
       Token.mk TokenType.EOF none "" 1] [] 6 7 2 false)
    (by decide) (by decide)

/-- Claim C4: a completed scan of any input with nonempty grapheme clusters
(including the empty input) produces a token list that ends in exactly one
`EOF` token with empty lexeme, and no `EOF` token occurs earlier. -/
theorem C4_eof_token_terminal (src : List String) (s : Scanner)
    (hne : ∀ g ∈ src, g ≠ "")
    (hs : Scanner.scan_tokens (Scanner.new src) = Res.ok s) :
    ∃ ts, s.tokens = ts ++
        [{ token_type := TokenType.EOF, literal := none, text := "", line := 1 }] ∧
      ∀ t ∈ ts, t.token_type ≠ TokenType.EOF := by
  obtain ⟨s₀, hl, rfl⟩ := scan_tokens_ok _ _ hs
  obtain ⟨hsrc, hcur, nt, ne, htok, herr, hflag, hline, hcount, heof⟩ :=
    scan_loop_spec _ _ _ hl
  refine ⟨s₀.tokens, add_token_eof s₀, ?_⟩
  intro t ht
  rw [htok] at ht
  simp only [Scanner.new, List.nil_append] at ht
  exact heof hne t ht

/-- Claim C4, witness at the empty input: the scan yields exactly the `EOF`
token. -/
theorem C4_witness :
    ∃ ts, (Scanner.mk [] [Token.mk TokenType.EOF none "" 1] [] 0 0 1 false).tokens = ts ++
        [{ token_type := TokenType.EOF, literal := none, text := "", line := 1 }] ∧
      ∀ t ∈ ts, t.token_type ≠ TokenType.EOF :=
  C4_eof_token_terminal [] _ (by decide) (by decide)

/-- Claim C10: the `EOF` token appended by `scan_tokens` is always built
with line 1 and no literal value, whatever the input; in particular its
line field ignores the final line counter, as the three-line input
`"\n\n("` shows (final counter 3, `EOF` line 1). -/
theorem C10_eof_token_line_one :
    (∀ (src : List String) (s : Scanner),
      Scanner.scan_tokens (Scanner.new src) = Res.ok s →
      ∃ ts, s.tokens = ts ++
        [{ token_type := TokenType.EOF, literal := none, text := "", line := 1 }]) ∧
    (∃ s : Scanner, Scanner.scan_tokens (Scanner.new ["\n", "\n", "("]) = Res.ok s ∧
      s.line = 3 ∧
      s.tokens.getLast? = some { token_type := TokenType.EOF, literal := none,
                                 text := "", line := 1 }) := by
  constructor
  · intro src s hs
    obtain ⟨s₀, hl, rfl⟩ := scan_tokens_ok _ _ hs
    exact ⟨s₀.tokens, add_token_eof s₀⟩
  · exact ⟨{ source := ["\n", "\n", "("],
             tokens := [{ token_type := TokenType.LEFT_PAREN, literal := none,
                          text := "(", line := 1 },
                        { token_type := TokenType.EOF, literal := none,
                          text := "", line := 1 }],
             errors := [], start := 2, current := 3, line := 3,
             has_errors := false }, by decide, by decide, by decide⟩

/-- Claim C10, witness at the one-grapheme input `"("`. -/
theorem C10_witness :
    ∃ ts, (Scanner.mk ["("]
        [Token.mk TokenType.LEFT_PAREN none "(" 1, Token.mk TokenType.EOF none "" 1]
        [] 0 1 1 false).tokens = ts ++
        [{ token_type := TokenType.EOF, literal := none, text := "", line := 1 }] :=
  C10_eof_token_line_one.1 ["("] _ (by decide)

/-- Claim C5: consuming one of `=`, `!`, `<`, `>` immediately followed by an
available `=` emits the single two-character token and consumes both
graphemes; when input has ended or the follower is anything else, the
one-character token is emitted and only the first grapheme is consumed.
Nothing else about the state changes. -/
theorem C5_compound_operator_tokens (s : Scanner) (c : String) (one two : TokenType)
    (hcase : (c = "=" ∧ one = TokenType.EQUAL ∧ two = TokenType.EQUAL_EQUAL) ∨
             (c = "!" ∧ one = TokenType.BANG ∧ two = TokenType.BANG_EQUAL) ∨
             (c = "<" ∧ one = TokenType.LESS ∧ two = TokenType.LESS_EQUAL) ∨
             (c = ">" ∧ one = TokenType.GREATER ∧ two = TokenType.GREATER_EQUAL))
    (hc : s.source[s.current]? = some c) :
    (s.source[s.current + 1]? = some "=" → s.current + 1 ≠ charsCount s.source →
      Scanner.scan_step s = Res.ok { s with
                                     start := s.current,
                                     current := s.current + 1 + 1,
                                     tokens := s.tokens ++ [Token.mk two none (c ++ "=") 1] }) ∧
    ((s.current + 1 = charsCount s.source ∨
        (∃ g, s.source[s.current + 1]? = some g ∧ g ≠ "=")) →
      Scanner.scan_step s = Res.ok { s with
                                     start := s.current,
                                     current := s.current + 1,
                                     tokens := s.tokens ++ [Token.mk one none c 1] }) := by
  have hsl2 : ∀ g2 : String, s.source[s.current + 1]? = some g2 →
      (s.source.drop s.current).take 2 = [c, g2] := by
    intro g2 hg2
    rw [drop_take_cons s.source s.current 1 c hc,
        drop_take_cons s.source (s.current + 1) 0 g2 hg2, List.take_zero]
  have hsl1 : (s.source.drop s.current).take 1 = [c] := by
    rw [drop_take_cons s.source s.current 0 c hc, List.take_zero]
  constructor
  · intro hg hne
    unfold Scanner.scan_step Scanner.advance
    simp only [Nat.add_sub_cancel]
    rw [hc]
    simp only
    rcases hcase with ⟨rfl, rfl, rfl⟩ | ⟨rfl, rfl, rfl⟩ | ⟨rfl, rfl, rfl⟩ | ⟨rfl, rfl, rfl⟩ <;>
      (simp only [TokenType.parse]
       rw [is_compound_true { s with start := s.current, current := s.current + 1 } "="
            (by exact hg) (by exact hne)]
       simp only
       unfold Scanner.add_token
       simp only
       rw [if_neg (by decide)]
       simp [show s.current + 1 + 1 - s.current = 2 from by omega, hsl2 "=" hg, join_pair])
  · intro hor
    have hfalse : Scanner.is_compound_token
        { s with start := s.current, current := s.current + 1 } "=" =
        some (false, { s with start := s.current, current := s.current + 1 }) := by
      rcases hor with he | ⟨g, hgg, hgne⟩
      · exact is_compound_false_eof _ _ (by exact he)
      · by_cases he : s.current + 1 = charsCount s.source
        · exact is_compound_false_eof _ _ (by exact he)
        · exact is_compound_false_ne _ _ g (by exact hgg) hgne (by exact he)
    unfold Scanner.scan_step Scanner.advance
    simp only [Nat.add_sub_cancel]
    rw [hc]
    simp only
    rcases hcase with ⟨rfl, rfl, rfl⟩ | ⟨rfl, rfl, rfl⟩ | ⟨rfl, rfl, rfl⟩ | ⟨rfl, rfl, rfl⟩ <;>
      (simp only [TokenType.parse]
       rw [hfalse]
       simp only
       unfold Scanner.add_token
       simp only
       rw [if_neg (by decide)]
       simp [hsl1, join_one])

/-- Claim C5, witness on `==`. -/
theorem C5_witness :
    Scanner.scan_step (Scanner.new ["=", "="]) =
      Res.ok (Scanner.mk ["=", "="] [Token.mk TokenType.EQUAL_EQUAL none "==" 1]
        [] 0 2 1 false) :=
  (C5_compound_operator_tokens (Scanner.new ["=", "="]) "="
    TokenType.EQUAL TokenType.EQUAL_EQUAL (Or.inl ⟨rfl, rfl, rfl⟩)
    (by decide)).1 (by decide) (by decide)

/-- Claim C6: when the closing quote is found (at position `j`, before the
`eof` bound), the step emits exactly one string token whose lexeme is the
full quoted text — open quote, middle, close quote — whose decoded literal
value is the middle, and records no error (the `errors` and `has_errors`
fields are untouched); the cursor moves past the closing quote. -/
theorem C6_terminated_string_token (s : Scanner) (j : Nat)
    (hc : s.source[s.current]? = some "\"")
    (hskip : skip_until s.source (charsCount s.source) "\"" (s.source.length + 1)
        (s.current + 1) = Res.ok j)
    (hj : j ≠ charsCount s.source) :
    ∃ mid : String,
      Scanner.scan_step s = Res.ok { s with
        start := s.current,
        current := j + 1,
        tokens := s.tokens ++ [Token.mk TokenType.STRING (some (Literal.String mid))
          ("\"" ++ mid ++ "\"") 1] } ∧
      mid = String.join ((s.source.drop (s.current + 1)).take (j - (s.current + 1))) := by
  obtain hq | hq := skip_until_stop _ _ _ _ _ _ hskip
  · exact absurd hq hj
  have hge : s.current + 1 ≤ j := skip_until_ge _ _ _ _ _ _ hskip
  have hmid : (s.source.drop s.current).take (j - s.current)
      = "\"" :: (s.source.drop (s.current + 1)).take (j - (s.current + 1)) := by
    have hd : j - s.current = (j - (s.current + 1)) + 1 := by omega
    rw [hd, drop_take_cons s.source s.current _ _ hc]
  have hslice : (s.source.drop s.current).take (j + 1 - s.current)
      = "\"" :: (s.source.drop (s.current + 1)).take (j - (s.current + 1)) ++ ["\""] := by
    have h2 : j + 1 - s.current = (j - s.current) + 1 := by omega
    have h3 : s.source[s.current + (j - s.current)]? = some "\"" := by
      have he : s.current + (j - s.current) = j := by omega
      rw [he]
      exact hq
    rw [h2, take_snoc s.source s.current (j - s.current) _ h3, hmid]
  have hjoin : String.join ((s.source.drop s.current).take (j + 1 - s.current))
      = "\"" ++ String.join ((s.source.drop (s.current + 1)).take (j - (s.current + 1)))
          ++ "\"" := by
    rw [hslice, join_append, join_cons, join_one]
  refine ⟨_, ?_, rfl⟩
  unfold Scanner.scan_step Scanner.advance
  simp only [Nat.add_sub_cancel]
  rw [hc]
  simp only [TokenType.parse]
  rw [hskip]
  simp only [Scanner.eof, beq_iff_eq]
  rw [if_pos (by simpa using hj)]
  unfold Scanner.add_token Scanner.substr
  simp only
  rw [if_neg (by decide)]
  simp [Nat.add_sub_cancel, hjoin]

/-- Claim C6, witness on `"a"`. -/
theorem C6_witness :
    ∃ mid : String,
      Scanner.scan_step (Scanner.new ["\"", "a", "\""]) =
        Res.ok (Scanner.mk ["\"", "a", "\""]
          [Token.mk TokenType.STRING (some (Literal.String mid)) ("\"" ++ mid ++ "\"") 1]
          [] 0 3 1 false) ∧
      mid = "a" :=
  C6_terminated_string_token (Scanner.new ["\"", "a", "\""]) 2
    (by decide) (by decide) (by decide)

/-- Claim C7: when the quote scan reaches the `eof` bound without a closing
quote, the step records exactly one `UnterminatedString` error, tagged with
the line counter as it was when the opening quote was consumed (the counter
does not change during the scan of the string), whose payload is the whole
consumed text from the opening quote on; it emits no token, sets the sticky
flag, and leaves the cursor at the `eof` bound, so the scan ends immediately
after. -/
theorem C7_unterminated_string_error (s : Scanner)
    (hc : s.source[s.current]? = some "\"")
    (hskip : skip_until s.source (charsCount s.source) "\"" (s.source.length + 1)
        (s.current + 1) = Res.ok (charsCount s.source)) :
    Scanner.scan_step s = Res.ok { s with
      start := s.current,
      current := charsCount s.source,
      errors := s.errors ++ [Error.mk (ErrorType.UnterminatedString
        (String.join ((s.source.drop s.current).take (charsCount s.source - s.current))))
        s.line],
      has_errors := true } ∧
    Scanner.eof { s with
      start := s.current,
      current := charsCount s.source,
      errors := s.errors ++ [Error.mk (ErrorType.UnterminatedString
        (String.join ((s.source.drop s.current).take (charsCount s.source - s.current))))
        s.line],
      has_errors := true } = true := by
  constructor
  · unfold Scanner.scan_step Scanner.advance
    simp only [Nat.add_sub_cancel]
    rw [hc]
    simp only [TokenType.parse]
    rw [hskip]
    simp only [Scanner.eof, beq_iff_eq]
    rw [if_neg (by simp)]
    unfold Scanner.add_error Scanner.substr
    simp only
  · simp [Scanner.eof]

/-- Claim C7, witness on `"a` with no closing quote. -/
theorem C7_witness :
    Scanner.scan_step (Scanner.new ["\"", "a"]) =
      Res.ok (Scanner.mk ["\"", "a"] []
        [Error.mk (ErrorType.UnterminatedString "\"a") 1] 0 2 1 true) ∧
    Scanner.eof (Scanner.mk ["\"", "a"] []
        [Error.mk (ErrorType.UnterminatedString "\"a") 1] 0 2 1 true) = true :=
  C7_unterminated_string_error (Scanner.new ["\"", "a"]) (by decide) (by decide)

/-- Claim C8: consuming an unrecognized grapheme `c` while the line counter
is `L` appends exactly one `UnexpectedCharacter` error with line `L` and
payload `c`, emits no token, moves the cursor exactly one grapheme on, and
sets the sticky flag; moreover, at the end of any completed run the flag is
true iff at least one error was recorded, and no step ever clears the flag. -/
theorem C8_unexpected_character_error (s : Scanner) (c : String)
    (hc : s.source[s.current]? = some c)
    (herr : TokenType.parse c = some TokenType.ERROR) :
    Scanner.scan_step s = Res.ok { s with
      start := s.current,
      current := s.current + 1,
      errors := s.errors ++ [Error.mk (ErrorType.UnexpectedCharacter c) s.line],
      has_errors := true } ∧
    (∀ (src : List String) (sf : Scanner),
      Scanner.scan_tokens (Scanner.new src) = Res.ok sf →
      (sf.has_errors = true ↔ sf.errors ≠ [])) ∧
    (∀ s₁ s₂ : Scanner, Scanner.scan_step s₁ = Res.ok s₂ →
      s₁.has_errors = true → s₂.has_errors = true) := by
  refine ⟨?_, ?_, ?_⟩
  · unfold Scanner.scan_step Scanner.advance
    simp only [Nat.add_sub_cancel]
    rw [hc]
    simp only
    rw [herr]
    simp only
    unfold Scanner.add_error
    simp only
  · intro src sf hsx
    obtain ⟨s₀, hl, rfl⟩ := scan_tokens_ok _ _ hsx
    obtain ⟨_, _, nt, ne, htok, herr2, hflag, _, _, _⟩ := scan_loop_spec _ _ _ hl
    rw [show (s₀.add_token TokenType.EOF none).has_errors = s₀.has_errors from rfl,
        show (s₀.add_token TokenType.EOF none).errors = s₀.errors from rfl, hflag, herr2]
    simp only [Scanner.new]
    cases ne <;> simp
  · intro s₁ s₂ hstep hflag1
    obtain ⟨_, _, nt, ne, _, _, hflag, _, _, _⟩ := scan_step_spec _ _ hstep
    rw [hflag, hflag1]
    simp

/-- Claim C8, witness on the unrecognized grapheme `@`. -/
theorem C8_witness :
    (Scanner.scan_step (Scanner.new ["@"]) =
      Res.ok (Scanner.mk ["@"] [] [Error.mk (ErrorType.UnexpectedCharacter "@") 1]
        0 1 1 true)) ∧
    (∀ (src : List String) (sf : Scanner),
      Scanner.scan_tokens (Scanner.new src) = Res.ok sf →
      (sf.has_errors = true ↔ sf.errors ≠ [])) ∧
    (∀ s₁ s₂ : Scanner, Scanner.scan_step s₁ = Res.ok s₂ →
      s₁.has_errors = true → s₂.has_errors = true) :=
  C8_unexpected_character_error (Scanner.new ["@"]) "@" (by decide) (by decide)

/-- Claim C9: after `//`, the step discards every grapheme up to but not
including the next line feed (or up to the `eof` bound), emits no token and
no error and leaves the line counter alone; the line feed itself stays
unconsumed, and the following iteration consumes it and increments the line
counter. -/
theorem C9_line_comment_skipped (s : Scanner) (j : Nat)
    (h1 : s.source[s.current]? = some "/")
    (h2 : s.source[s.current + 1]? = some "/")
    (hne : s.current + 1 ≠ charsCount s.source)
    (hskip : skip_until s.source (charsCount s.source) "\n" (s.source.length + 1)
        (s.current + 1 + 1) = Res.ok j) :
    Scanner.scan_step s = Res.ok { s with start := s.current, current := j } ∧
    (j = charsCount s.source ∨ s.source[j]? = some "\n") ∧
    (∀ k, s.current + 1 + 1 ≤ k → k < j → s.source[k]? ≠ some "\n") ∧
    (s.source[j]? = some "\n" →
      Scanner.scan_step { s with start := s.current, current := j } =
        Res.ok { s with start := j, current := j + 1, line := s.line + 1 }) := by
  refine ⟨?_, skip_until_stop _ _ _ _ _ _ hskip, ?_, ?_⟩
  · unfold Scanner.scan_step Scanner.advance
    simp only [Nat.add_sub_cancel]
    rw [h1]
    simp only [TokenType.parse]
    rw [is_compound_true { s with start := s.current, current := s.current + 1 } "/"
        (by exact h2) (by exact hne)]
    simp only
    rw [hskip]
  · intro k hk1 hk2 hcontra
    obtain ⟨g, hg, hgne⟩ := skip_until_mid _ _ _ _ _ _ hskip k hk1 hk2
    rw [hcontra] at hg
    cases hg
    exact hgne rfl
  · intro hlf
    unfold Scanner.scan_step Scanner.advance
    simp only [Nat.add_sub_cancel]
    rw [show ({ s with start := s.current, current := j } : Scanner).source[({ s with start := s.current, current := j } : Scanner).current]? = some "\n" from hlf]
    rfl

/-- Claim C9, witness on `//a` followed by a line feed and `(`. -/
theorem C9_witness :
    Scanner.scan_step (Scanner.new ["/", "/", "a", "\n", "("]) =
      Res.ok (Scanner.mk ["/", "/", "a", "\n", "("] [] [] 0 3 1 false) ∧
    ((3 : Nat) = charsCount ["/", "/", "a", "\n", "("] ∨
      (["/", "/", "a", "\n", "("] : List String)[3]? = some "\n") ∧
    (∀ k, 0 + 1 + 1 ≤ k → k < 3 →
      (["/", "/", "a", "\n", "("] : List String)[k]? ≠ some "\n") ∧
    ((["/", "/", "a", "\n", "("] : List String)[3]? = some "\n" →
      Scanner.scan_step (Scanner.mk ["/", "/", "a", "\n", "("] [] [] 0 3 1 false) =
        Res.ok (Scanner.mk ["/", "/", "a", "\n", "("] [] [] 3 4 2 false)) :=
  C9_line_comment_skipped (Scanner.new ["/", "/", "a", "\n", "("]) 3
    (by decide) (by decide) (by decide) (by decide)

end RustyLox
